import Mathlib

/-!
Shallow embedding of the camera-metadata extractor of the
mit-adobe-fivek-dataset repository (`open_dng.cpp` /
`generate_camera_info.cpp`): the raw-extension test `is_dng_file`, the
path helper `basename`, the per-file extraction `camera_model` built on
LibRaw, and the batch `main` loop that walks a directory tree and writes
one CSV line per visited `.dng` file.

Paths and C++ `std::string` values are modelled as `List Char`; C++
`size_t` arithmetic is modelled explicitly modulo `2 ^ 64`;
`std::string::substr`, which throws `std::out_of_range` when its start
position exceeds the string size, is modelled in `Except`.  The LibRaw
library is external to the repository: a file's behaviour under
`open_file` / `unpack` and the identification block it carries are
modelled as an environment `Env` mapping each path to a `FileInfo`.
-/

/-- Equality of `Except` values is decidable when it is on both sides. -/
instance {ε α : Type} [DecidableEq ε] [DecidableEq α] : DecidableEq (Except ε α) := fun a b =>
  match a, b with
  | .error e, .error f => decidable_of_iff (e = f) (by simp)
  | .ok x, .ok y => decidable_of_iff (x = y) (by simp)
  | .error _, .ok _ => isFalse (by simp)
  | .ok _, .error _ => isFalse (by simp)

namespace FiveK

/-- C++ strings and paths, as plain character lists. -/
abbrev Str := List Char

/-- `2 ^ 64`, the modulus of C++ `size_t` arithmetic. -/
def SIZE_T_MOD : Nat := 18446744073709551616

/-- `std::string::npos = (size_t)(-1)`. -/
def NPOS : Nat := SIZE_T_MOD - 1

/-- `LIBRAW_SUCCESS` return code (0 in `libraw.h`). -/
def LIBRAW_SUCCESS : Int := 0

/-- `LIBRAW_OUT_OF_ORDER_CALL` return code (-4 in `libraw.h`), produced when
`unpack` runs with no file opened. -/
def LIBRAW_OUT_OF_ORDER_CALL : Int := -4

/-- `std::string::substr(pos)`: throws `std::out_of_range` when
`pos > size()`, otherwise yields the suffix starting at `pos`. -/
def substrFrom (s : Str) (pos : Nat) : Except Unit Str :=
  if pos ≤ s.length then .ok (s.drop pos) else .error ()

/-- `std::string::substr(pos, count)`: throws `std::out_of_range` when
`pos > size()`; `count` is clamped to the available length. -/
def substrAt (s : Str) (pos count : Nat) : Except Unit Str :=
  if pos ≤ s.length then .ok ((s.drop pos).take count) else .error ()

/-- The raw extension `".dng"`. -/
def dngT : Str := ".dng".toList

/-- Embedding of `is_dng_file`: `path.substr(path.size() - 4) == ".dng"`.
The start position `path.size() - 4` is computed in `size_t` arithmetic, so
for a path shorter than 4 characters it wraps around to a huge value and
`substr` throws. -/
def is_dng_file (path : Str) : Except Unit Bool :=
  (substrFrom path (((SIZE_T_MOD - 4) + path.length) % SIZE_T_MOD)).map
    (fun tail => decide (tail = dngT))

/-- Path-separator test matching `find_last_of("/\\")`. -/
def isSep (c : Char) : Bool := c = '/' || c = '\\'

/-- Index of the last separator of the path, if any (the index is counted
from the front, as `std::string::find_last_of` returns it). -/
def lastSepIdx : Str → Option Nat
  | [] => none
  | c :: cs =>
    match lastSepIdx cs with
    | some j => some (j + 1)
    | none => if isSep c then some 0 else none

/-- `path.find_last_of("/\\")`: last separator index, or `npos`. -/
def find_last_of_sep (p : Str) : Nat :=
  match lastSepIdx p with
  | some j => j
  | none => NPOS

/-- Embedding of `basename`: take the component after the last separator
(`substr(pos + 1)` where `pos + 1` wraps to 0 when `find_last_of` returned
`npos`), then drop the last four characters
(`filename.substr(0, filename.size() - 4)`, the count again computed in
`size_t` arithmetic). -/
def basename (p : Str) : Except Unit Str :=
  match substrFrom p ((find_last_of_sep p + 1) % SIZE_T_MOD) with
  | .error e => .error e
  | .ok filename =>
    substrAt filename 0 (((SIZE_T_MOD - 4) + filename.length) % SIZE_T_MOD)

/-- The identification block `libraw_data_t.idata` read by the extractor. -/
structure Idata where
  make : Str
  normalized_make : Str
  model : Str
  normalized_model : Str
deriving DecidableEq

/-- What LibRaw does with one concrete file: the code `open_file` returns on
it, the code `unpack` then returns, and the identification block filled in
on a successful open. -/
structure FileInfo where
  openCode : Int
  unpackCode : Int
  idata : Idata
deriving DecidableEq

/-- The filesystem / LibRaw environment: each path names a file with a fixed
decode behaviour. -/
abbrev Env := Str → FileInfo

/-- The mutable LibRaw processor state visible to the extractor. -/
structure LibRaw where
  idata : Idata
  opened : Option FileInfo
deriving DecidableEq

/-- Identification block of a freshly constructed / recycled processor. -/
def blankIdata : Idata := ⟨[], [], [], []⟩

/-- A freshly constructed `LibRaw` object. -/
def initLibRaw : LibRaw := ⟨blankIdata, none⟩

/-- `LibRaw::recycle()`: resets the processor to its pre-open state. -/
def recycle (_ : LibRaw) : LibRaw := initLibRaw

/-- `LibRaw::open_file(filename)`: on success loads the file's
identification block into the processor, on failure returns the error code
and leaves the processor unchanged. -/
def open_file (fs : Env) (r : LibRaw) (filename : Str) : Int × LibRaw :=
  let fi := fs filename
  if fi.openCode = LIBRAW_SUCCESS then
    (fi.openCode, { idata := fi.idata, opened := some fi })
  else (fi.openCode, r)

/-- `LibRaw::unpack()`: returns the file's unpack code, or an
out-of-order-call error when no file is open. -/
def unpack (r : LibRaw) : Int × LibRaw :=
  match r.opened with
  | some fi => (fi.unpackCode, r)
  | none => (LIBRAW_OUT_OF_ORDER_CALL, r)

/-- A one-character comma string. -/
def comma : Str := ",".toList

/-- Embedding of `camera_model`: recycle the processor, open the file
(returning `""` on a non-success code), unpack (returning `""` on a
non-success code), else return
`make + "," + normalized_make + "," + model + "," + normalized_model`.
The final processor state is returned alongside, as the C++ function
mutates its `LibRaw &` argument. -/
def camera_model (fs : Env) (raw : LibRaw) (filename : Str) : Str × LibRaw :=
  let raw := recycle raw
  let res := open_file fs raw filename
  if res.1 ≠ LIBRAW_SUCCESS then ([], res.2)
  else
    let res2 := unpack res.2
    if res2.1 ≠ LIBRAW_SUCCESS then ([], res2.2)
    else
      (res2.2.idata.make ++ comma ++ res2.2.idata.normalized_make ++ comma ++
        res2.2.idata.model ++ comma ++ res2.2.idata.normalized_model, res2.2)

/-- One entry yielded by `recursive_directory_iterator`: its path and
whether `entry.is_directory()` holds. -/
structure Entry where
  path : Str
  isDir : Bool
deriving DecidableEq

/-- The CSV header line written before the loop. -/
def headerLine : Str := "file_id,make,normalized_make,model,normalized_model".toList

/-- Observable outcome of a batch run: the lines written to the output
file, and the process exit code. -/
structure RunResult where
  output : List Str
  exitCode : Int
deriving DecidableEq

/-- The directory-walk loop of `main`.  For each entry: directories are
skipped; `is_dng_file` throwing aborts the run (the exception reaches the
`catch` block, which returns 1, with the lines written so far already in
the file); on a `.dng` match, `camera_model` is evaluated first (it never
throws), then `basename`, and the line
`basename + "," + camera_info` is appended. -/
def runLoop (fs : Env) : LibRaw → List Entry → List Str → List Str × Int
  | _, [], acc => (acc, 0)
  | raw, e :: rest, acc =>
    if e.isDir then runLoop fs raw rest acc
    else
      match is_dng_file e.path with
      | .error _ => (acc, 1)
      | .ok false => runLoop fs raw rest acc
      | .ok true =>
        let ci := camera_model fs raw e.path
        match basename e.path with
        | .error _ => (acc, 1)
        | .ok bn => runLoop fs ci.2 rest (acc ++ [bn ++ comma ++ ci.1])

/-- Embedding of `main`: write the header, then run the walk loop with a
freshly constructed `LibRaw` object; exit code 0 on normal completion, 1
when an exception escapes the loop. -/
def mainRun (fs : Env) (entries : List Entry) : RunResult :=
  let r := runLoop fs initLibRaw entries [headerLine]
  ⟨r.1, r.2⟩

/-- Spec-side helper: fold step that restarts the accumulated component at
each separator. -/
def compStep (acc : Str) (c : Char) : Str := if isSep c then [] else acc ++ [c]

/-- Spec-side definition of the final path component: split on `/` or `\`
and keep what follows the last separator (the whole string when no
separator occurs). -/
def lastComponent (p : Str) : Str := p.foldl compStep []

/-- The value `basename` computes on any realizable path (length below
`2 ^ 64`): the last component with its last four characters removed, or the
whole component when it is shorter than four characters (the `size_t`
count then wraps and `substr` clamps it). -/
def stem (p : Str) : Str :=
  let f := lastComponent p
  if 4 ≤ f.length then f.take (f.length - 4) else f

/-- The camera string of a file, as `camera_model` computes it from a fresh
processor. -/
def cmResult (fs : Env) (p : Str) : Str := (camera_model fs initLibRaw p).1

/-- The CSV line the batch emits for the file at `p`. -/
def rowFor (fs : Env) (p : Str) : Str := stem p ++ comma ++ cmResult fs p

/-- Code-side predicate: the loop emits a row for this entry (not a
directory, and `is_dng_file` returns true). -/
def visitsRow (e : Entry) : Bool :=
  !e.isDir &&
    (match is_dng_file e.path with
     | .ok b => b
     | .error _ => false)

/-- Spec-side predicate: the entry is a non-directory whose path ends in
`".dng"`. -/
def dngVisit (e : Entry) : Bool := !e.isDir && dngT.isSuffixOf e.path

/-! ### Helper lemmas about `size_t` arithmetic and `is_dng_file` -/

lemma sizeT_literal : SIZE_T_MOD = 18446744073709551616 := rfl

lemma sizeT_sub4 {L : Nat} (h4 : 4 ≤ L) (hlt : L < SIZE_T_MOD) :
    ((SIZE_T_MOD - 4) + L) % SIZE_T_MOD = L - 4 := by
  have h1 : (SIZE_T_MOD - 4) + L = (L - 4) + SIZE_T_MOD := by
    have := sizeT_literal; omega
  rw [h1, Nat.add_mod_right, Nat.mod_eq_of_lt (by omega)]

lemma is_dng_file_eq {p : Str} (h4 : 4 ≤ p.length) (hlt : p.length < SIZE_T_MOD) :
    is_dng_file p = .ok (decide (p.drop (p.length - 4) = dngT)) := by
  unfold is_dng_file substrFrom
  rw [sizeT_sub4 h4 hlt, if_pos (Nat.sub_le _ _)]
  rfl

lemma is_dng_file_noerr {p : Str} (h4 : 4 ≤ p.length) :
    ∃ b, is_dng_file p = .ok b := by
  have hb : ((SIZE_T_MOD - 4) + p.length) % SIZE_T_MOD ≤ p.length := by
    rcases Nat.lt_or_ge p.length SIZE_T_MOD with h | h
    · rw [sizeT_sub4 h4 h]; exact Nat.sub_le _ _
    · exact le_trans (le_of_lt (Nat.mod_lt _ (by rw [sizeT_literal]; omega))) h
  refine ⟨decide (p.drop (((SIZE_T_MOD - 4) + p.length) % SIZE_T_MOD) = dngT), ?_⟩
  unfold is_dng_file substrFrom
  rw [if_pos hb]
  rfl

lemma is_dng_file_short {p : Str} (hlt : p.length < 4) : is_dng_file p = .error () := by
  have hmod : ((SIZE_T_MOD - 4) + p.length) % SIZE_T_MOD = (SIZE_T_MOD - 4) + p.length := by
    apply Nat.mod_eq_of_lt; have := sizeT_literal; omega
  unfold is_dng_file substrFrom
  rw [hmod, if_neg (by have := sizeT_literal; omega)]
  rfl

lemma dng_suffix_iff {p : Str} :
    dngT.isSuffixOf p = true ↔ p.drop (p.length - 4) = dngT := by
  rw [List.isSuffixOf_iff_suffix, List.suffix_iff_eq_drop]
  have h : dngT.length = 4 := rfl
  rw [h, eq_comm]

/-! ### Helper lemmas about `basename` and `lastComponent` -/

lemma lastSepIdx_none_sepFree {p : Str} (h : lastSepIdx p = none) :
    ∀ c ∈ p, isSep c = false := by
  induction p with
  | nil => simp
  | cons a as ih =>
    simp only [lastSepIdx] at h
    cases has : lastSepIdx as with
    | some j => simp [has] at h
    | none =>
      simp only [has] at h
      by_cases ha : isSep a
      · simp [ha] at h
      · intro c hc
        rcases List.mem_cons.mp hc with rfl | hc
        · simpa using ha
        · exact ih has c hc

lemma foldl_compStep_sepFree {l : Str} (hl : ∀ c ∈ l, isSep c = false) (acc : Str) :
    l.foldl compStep acc = acc ++ l := by
  induction l generalizing acc with
  | nil => simp
  | cons a as ih =>
    have ha : isSep a = false := hl a (by simp)
    rw [List.foldl_cons]
    have hstep : compStep acc a = acc ++ [a] := by simp [compStep, ha]
    rw [hstep, ih (fun c hc => hl c (by simp [hc]))]
    simp

lemma lastSepIdx_some {p : Str} {j : Nat} (h : lastSepIdx p = some j) :
    j < p.length ∧ ∀ acc, p.foldl compStep acc = p.drop (j + 1) := by
  induction p generalizing j with
  | nil => simp [lastSepIdx] at h
  | cons a as ih =>
    simp only [lastSepIdx] at h
    cases has : lastSepIdx as with
    | some j' =>
      simp only [has] at h
      obtain rfl : j' + 1 = j := Option.some.inj h
      obtain ⟨hlt, hfold⟩ := ih has
      refine ⟨by simpa using Nat.succ_lt_succ hlt, fun acc => ?_⟩
      rw [List.foldl_cons, hfold (compStep acc a)]
      simp
    | none =>
      simp only [has] at h
      by_cases ha : isSep a
      · rw [if_pos ha] at h
        obtain rfl : (0 : Nat) = j := Option.some.inj h
        refine ⟨by simp, fun acc => ?_⟩
        rw [List.foldl_cons]
        have hstep : compStep acc a = [] := by simp [compStep, ha]
        rw [hstep, foldl_compStep_sepFree (lastSepIdx_none_sepFree has) []]
        simp
      · rw [if_neg ha] at h
        cases h

lemma basename_eq_stem {p : Str} (hlt : p.length < SIZE_T_MOD) :
    basename p = .ok (stem p) := by
  cases h : lastSepIdx p with
  | none =>
    have hflos : find_last_of_sep p = NPOS := by simp [find_last_of_sep, h]
    have hcomp : lastComponent p = p := by
      simpa using foldl_compStep_sepFree (lastSepIdx_none_sepFree h) []
    have h1 : NPOS + 1 = SIZE_T_MOD := by
      have := sizeT_literal; unfold NPOS; omega
    have hsub : substrFrom p ((find_last_of_sep p + 1) % SIZE_T_MOD) = .ok p := by
      unfold substrFrom
      rw [hflos, h1, Nat.mod_self, if_pos (Nat.zero_le _)]
      simp
    unfold basename
    rw [hsub]
    show substrAt p 0 (((SIZE_T_MOD - 4) + p.length) % SIZE_T_MOD) = .ok (stem p)
    unfold substrAt
    rw [if_pos (Nat.zero_le _)]
    simp only [List.drop_zero]
    by_cases h4 : 4 ≤ p.length
    · rw [sizeT_sub4 h4 hlt]
      simp [stem, hcomp, h4]
    · have hcnt : ((SIZE_T_MOD - 4) + p.length) % SIZE_T_MOD
          = (SIZE_T_MOD - 4) + p.length :=
        Nat.mod_eq_of_lt (by have := sizeT_literal; omega)
      rw [hcnt, List.take_of_length_le (by omega)]
      simp [stem, hcomp, h4]
  | some j =>
    obtain ⟨hj, hfold⟩ := lastSepIdx_some h
    have hflos : find_last_of_sep p = j := by simp [find_last_of_sep, h]
    have hcomp : lastComponent p = p.drop (j + 1) := hfold []
    have hmod : (j + 1) % SIZE_T_MOD = j + 1 := Nat.mod_eq_of_lt (by omega)
    have hdlen : (p.drop (j + 1)).length = p.length - (j + 1) := by simp
    have hsub : substrFrom p ((find_last_of_sep p + 1) % SIZE_T_MOD) = .ok (p.drop (j + 1)) := by
      unfold substrFrom
      rw [hflos, hmod, if_pos (by omega)]
    unfold basename
    rw [hsub]
    show substrAt (p.drop (j + 1)) 0
        (((SIZE_T_MOD - 4) + (p.drop (j + 1)).length) % SIZE_T_MOD) = .ok (stem p)
    unfold substrAt
    rw [if_pos (Nat.zero_le _)]
    simp only [List.drop_zero]
    by_cases h4 : 4 ≤ (p.drop (j + 1)).length
    · rw [sizeT_sub4 h4 (by rw [hdlen]; omega)]
      rw [hdlen] at h4
      simp [stem, hcomp, h4]
    · have hcnt : ((SIZE_T_MOD - 4) + (p.drop (j + 1)).length) % SIZE_T_MOD
          = (SIZE_T_MOD - 4) + (p.drop (j + 1)).length :=
        Nat.mod_eq_of_lt (by have := sizeT_literal; omega)
      rw [hcnt, List.take_of_length_le (by omega)]
      rw [hdlen] at h4
      simp [stem, hcomp, h4]

/-! ### Helper lemmas about `camera_model` -/

lemma camera_model_recycle (fs : Env) (raw raw' : LibRaw) (p : Str) :
    camera_model fs raw p = camera_model fs raw' p := rfl

lemma camera_model_fail (fs : Env) (raw : LibRaw) (p : Str)
    (h : (fs p).openCode ≠ LIBRAW_SUCCESS ∨ (fs p).unpackCode ≠ LIBRAW_SUCCESS) :
    (camera_model fs raw p).1 = [] := by
  by_cases ho : (fs p).openCode = LIBRAW_SUCCESS
  · have hu : (fs p).unpackCode ≠ LIBRAW_SUCCESS := h.resolve_left (by simp [ho])
    simp [camera_model, recycle, open_file, unpack, ho, hu]
  · simp [camera_model, recycle, open_file, unpack, ho]

lemma camera_model_success (fs : Env) (raw : LibRaw) (p : Str)
    (ho : (fs p).openCode = LIBRAW_SUCCESS) (hu : (fs p).unpackCode = LIBRAW_SUCCESS) :
    (camera_model fs raw p).1 =
      (fs p).idata.make ++ comma ++ (fs p).idata.normalized_make ++ comma ++
        (fs p).idata.model ++ comma ++ (fs p).idata.normalized_model := by
  simp [camera_model, recycle, open_file, unpack, ho, hu]

/-! ### Helper lemmas about the batch loop -/

lemma runLoop_extends (fs : Env) :
    ∀ (es : List Entry) (raw : LibRaw) (acc : List Str),
      ∃ tail, (runLoop fs raw es acc).1 = acc ++ tail := by
  intro es
  induction es with
  | nil => exact fun raw acc => ⟨[], by simp [runLoop]⟩
  | cons e rest ih =>
    intro raw acc
    by_cases hd : e.isDir = true
    · simpa [runLoop, hd] using ih raw acc
    · cases hdng : is_dng_file e.path with
      | error u => exact ⟨[], by simp [runLoop, hd, hdng]⟩
      | ok b =>
        cases b with
        | false => simpa [runLoop, hd, hdng] using ih raw acc
        | true =>
          cases hbn : basename e.path with
          | error u => exact ⟨[], by simp [runLoop, hd, hdng, hbn]⟩
          | ok bn =>
            have heq : runLoop fs raw (e :: rest) acc
                = runLoop fs (camera_model fs raw e.path).2 rest
                    (acc ++ [bn ++ comma ++ (camera_model fs raw e.path).1]) := by
              simp [runLoop, hd, hdng, hbn]
            obtain ⟨tail, ht⟩ := ih (camera_model fs raw e.path).2
              (acc ++ [bn ++ comma ++ (camera_model fs raw e.path).1])
            exact ⟨[bn ++ comma ++ (camera_model fs raw e.path).1] ++ tail,
              by rw [heq, ht]; simp⟩

lemma runLoop_raw_indep (fs : Env) :
    ∀ (es : List Entry) (raw raw' : LibRaw) (acc : List Str),
      runLoop fs raw es acc = runLoop fs raw' es acc := by
  intro es
  induction es with
  | nil => exact fun _ _ _ => rfl
  | cons e rest ih =>
    intro raw raw' acc
    have hcm : camera_model fs raw e.path = camera_model fs raw' e.path := rfl
    by_cases hd : e.isDir = true
    · simp only [runLoop, hd, if_true]
      exact ih raw raw' acc
    · cases hdng : is_dng_file e.path with
      | error u => simp [runLoop, hd, hdng]
      | ok b =>
        cases b with
        | false => simpa [runLoop, hd, hdng] using ih raw raw' acc
        | true =>
          cases hbn : basename e.path with
          | error u => simp [runLoop, hd, hdng, hbn]
          | ok bn =>
            simp only [runLoop, hd, hdng, hbn]
            simp only [hcm]
            simp

lemma runLoop_char (fs : Env) :
    ∀ (es : List Entry) (raw : LibRaw) (acc : List Str),
      (∀ e ∈ es, 4 ≤ e.path.length ∧ e.path.length < SIZE_T_MOD) →
      runLoop fs raw es acc
        = (acc ++ (es.filter dngVisit).map (fun e => rowFor fs e.path), 0) := by
  intro es
  induction es with
  | nil => intro raw acc _; simp [runLoop]
  | cons e rest ih =>
    intro raw acc h
    have h4 := (h e (List.mem_cons_self e rest)).1
    have hlt := (h e (List.mem_cons_self e rest)).2
    have hrest : ∀ e' ∈ rest, 4 ≤ e'.path.length ∧ e'.path.length < SIZE_T_MOD :=
      fun e' he' => h e' (List.mem_cons_of_mem e he')
    by_cases hd : e.isDir = true
    · have hfil : dngVisit e = false := by simp [dngVisit, hd]
      rw [List.filter_cons_of_neg (by simp [hfil])]
      simp only [runLoop, hd, if_true]
      exact ih raw acc hrest
    · have hdb : is_dng_file e.path = .ok (decide (e.path.drop (e.path.length - 4) = dngT)) :=
        is_dng_file_eq h4 hlt
      by_cases hdng : e.path.drop (e.path.length - 4) = dngT
      · have hok : is_dng_file e.path = .ok true := by rw [hdb, decide_eq_true hdng]
        have hfil : dngVisit e = true := by
          simp only [dngVisit, Bool.and_eq_true, Bool.not_eq_true']
          exact ⟨by simpa using hd, dng_suffix_iff.mpr hdng⟩
        have hbn : basename e.path = .ok (stem e.path) := basename_eq_stem hlt
        have hstep : runLoop fs raw (e :: rest) acc
            = runLoop fs (camera_model fs raw e.path).2 rest
                (acc ++ [stem e.path ++ comma ++ (camera_model fs raw e.path).1]) := by
          simp [runLoop, hd, hok, hbn]
        have hrow : stem e.path ++ comma ++ (camera_model fs raw e.path).1
            = rowFor fs e.path := rfl
        rw [List.filter_cons_of_pos (by simp [hfil]), hstep,
          ih (camera_model fs raw e.path).2 _ hrest, hrow]
        simp
      · have hok : is_dng_file e.path = .ok false := by
          rw [hdb, decide_eq_false hdng]
        have hfil : dngVisit e = false := by
          simp only [dngVisit, Bool.and_eq_false_iff]  -- maybe wrong lemma, iterate
          right
          by_contra hcon
          exact hdng (dng_suffix_iff.mp (by simpa using hcon))
        rw [List.filter_cons_of_neg (by simp [hfil])]
        have hstep : runLoop fs raw (e :: rest) acc = runLoop fs raw rest acc := by
          simp [runLoop, hd, hok]
        rw [hstep]
        exact ih raw acc hrest

/-- Characterization of a full batch run on entries with realizable path
lengths: the output is the header followed by one row per non-directory
entry whose path ends in `".dng"`, in traversal order, and the exit code
is 0. -/
lemma mainRun_char (fs : Env) (entries : List Entry)
    (h : ∀ e ∈ entries, 4 ≤ e.path.length ∧ e.path.length < SIZE_T_MOD) :
    mainRun fs entries
      = ⟨headerLine :: (entries.filter dngVisit).map (fun e => rowFor fs e.path), 0⟩ := by
  simp only [mainRun, runLoop_char fs entries initLibRaw [headerLine] h]
  rfl

/-! ### Concrete fixtures used by witnesses and counterexamples -/

/-- A sample identification block. -/
def leicaIdata : Idata := ⟨"Leica".toList, "leica".toList, "M8".toList, "m8".toList⟩

/-- Environment in which every file opens and unpacks successfully. -/
def fsOk : Env := fun _ => ⟨0, 0, leicaIdata⟩

/-- Environment in which every file fails to open (nonzero open code). -/
def fsFail : Env := fun _ => ⟨1, 0, blankIdata⟩

/-- A sample raw-file path. -/
def pW : Str := "raw/a1384-dvf_095.dng".toList

/-- A sample raw-file entry. -/
def eW : Entry := ⟨pW, false⟩

/-- A sample directory entry. -/
def eDir : Entry := ⟨"raw/subdir".toList, true⟩

/-- A sample non-raw file entry. -/
def eTxt : Entry := ⟨"raw/readme.txt".toList, false⟩

/-- A sample path ending in the upper-case extension variant. -/
def pDNG : Str := "a.DNG".toList

/-! ### Claim theorems -/

/-- Claim C1, counterexample: in an environment where the raw container of
`raw/a1384-dvf_095.dng` fails to open, the batch still emits a data row for
that file (`"a1384-dvf_095,"`), so the output is not one row per
successfully opened file and failed files are not skipped. -/
theorem C1_counterexample :
    (fsFail pW).openCode ≠ LIBRAW_SUCCESS ∧
    (mainRun fsFail [eW]).output = [headerLine, "a1384-dvf_095,".toList] := by
  decide

/-- Claim C1, amended: the batch emits exactly one row per visited
non-directory `.dng` entry, whether or not the file opens and decodes; for
a file that fails to open or unpack the emitted row is the basename
followed by a bare comma and empty camera fields. -/
theorem C1_row_per_visited_dng (fs : Env) (entries : List Entry)
    (h : ∀ e ∈ entries, 4 ≤ e.path.length ∧ e.path.length < SIZE_T_MOD) :
    (mainRun fs entries).output.length = 1 + (entries.filter dngVisit).length ∧
    ∀ e ∈ entries, e.isDir = false → dngT.isSuffixOf e.path = true →
      ((fs e.path).openCode ≠ LIBRAW_SUCCESS ∨ (fs e.path).unpackCode ≠ LIBRAW_SUCCESS) →
      (stem e.path ++ comma) ∈ (mainRun fs entries).output := by
  have hout := mainRun_char fs entries h
  constructor
  · rw [hout]; simp; omega
  · intro e he hdir hsfx hfail
    have hvis : dngVisit e = true := by simp [dngVisit, hdir, hsfx]
    have hrow : rowFor fs e.path = stem e.path ++ comma := by
      unfold rowFor cmResult
      rw [camera_model_fail fs initLibRaw e.path hfail]
      simp
    have hm : rowFor fs e.path ∈ (entries.filter dngVisit).map (fun e => rowFor fs e.path) :=
      List.mem_map_of_mem _ (List.mem_filter.mpr ⟨he, hvis⟩)
    rw [hout, ← hrow]
    exact List.mem_cons_of_mem _ hm

/-- Claim C1, amended, witness at a concrete input: a one-entry batch whose
only file fails to open has one header line plus one data row, and that
row is the basename followed by a bare comma. -/
theorem C1_row_per_visited_dng_witness :
    (mainRun fsFail [eW]).output.length = 1 + (([eW] : List Entry).filter dngVisit).length ∧
    (stem pW ++ comma) ∈ (mainRun fsFail [eW]).output :=
  ⟨(C1_row_per_visited_dng fsFail [eW] (by decide)).1,
   (C1_row_per_visited_dng fsFail [eW] (by decide)).2 eW (by decide) rfl (by decide)
     (Or.inl (by decide))⟩

/-- Claim C2: `camera_model` is a total function of the environment and the
path (it never throws); when the file fails to open or to unpack it
returns the empty string as a value, and when both succeed it returns the
comma-joined make / normalized make / model / normalized model strings. -/
theorem C2_camera_model_total (fs : Env) (raw : LibRaw) (p : Str) :
    (((fs p).openCode ≠ LIBRAW_SUCCESS ∨ (fs p).unpackCode ≠ LIBRAW_SUCCESS) →
      (camera_model fs raw p).1 = []) ∧
    ((fs p).openCode = LIBRAW_SUCCESS → (fs p).unpackCode = LIBRAW_SUCCESS →
      (camera_model fs raw p).1 =
        (fs p).idata.make ++ comma ++ (fs p).idata.normalized_make ++ comma ++
          (fs p).idata.model ++ comma ++ (fs p).idata.normalized_model) :=
  ⟨camera_model_fail fs raw p, camera_model_success fs raw p⟩

/-- Claim C2, witness: on a concrete failing environment the result is the
empty string, and on a concrete succeeding one it is the metadata join. -/
theorem C2_camera_model_total_witness :
    (camera_model fsFail initLibRaw pW).1 = [] ∧
    (camera_model fsOk initLibRaw pW).1 =
      (fsOk pW).idata.make ++ comma ++ (fsOk pW).idata.normalized_make ++ comma ++
        (fsOk pW).idata.model ++ comma ++ (fsOk pW).idata.normalized_model :=
  ⟨(C2_camera_model_total fsFail initLibRaw pW).1 (Or.inl (by decide)),
   (C2_camera_model_total fsOk initLibRaw pW).2 rfl rfl⟩

/-- Claim C3: contrary to the claim, `is_dng_file` is not total. On the
three-character path `"./a"` the start position `path.size() - 4` wraps
around in `size_t` to `2 ^ 64 - 1`, which exceeds the size, so
`substr` reaches the out-of-range state instead of returning false; a
batch that visits such an entry aborts with exit code 1. -/
theorem C3_short_path_out_of_range :
    is_dng_file "./a".toList = .error () ∧
    (mainRun fsFail [⟨"./a".toList, false⟩]).exitCode = 1 := by
  decide

/-- Claim C4: a file that fails to open or decode never aborts the batch:
for every environment (hence for arbitrary open/unpack failures), a run
over entries with realizable path lengths terminates with exit code 0 and
still emits its full row count, one row per visited `.dng` entry. -/
theorem C4_failures_do_not_abort (fs : Env) (entries : List Entry)
    (h : ∀ e ∈ entries, 4 ≤ e.path.length ∧ e.path.length < SIZE_T_MOD) :
    (mainRun fs entries).exitCode = 0 ∧
    (mainRun fs entries).output.length = 1 + (entries.filter dngVisit).length := by
  rw [mainRun_char fs entries h]
  simp
  omega

/-- Claim C4, witness: a concrete batch in which every open fails still
exits 0 with its full row count. -/
theorem C4_failures_do_not_abort_witness :
    (mainRun fsFail [eW, eTxt]).exitCode = 0 ∧
    (mainRun fsFail [eW, eTxt]).output.length
      = 1 + (([eW, eTxt] : List Entry).filter dngVisit).length :=
  C4_failures_do_not_abort fsFail [eW, eTxt] (by decide)

/-- Claim C5: the first line the batch writes is exactly the header
`file_id,make,normalized_make,model,normalized_model`, before any data
row, in every environment and for every entry sequence. -/
theorem C5_header_first (fs : Env) (entries : List Entry) :
    ∃ rest, (mainRun fs entries).output = headerLine :: rest := by
  obtain ⟨tail, ht⟩ := runLoop_extends fs entries initLibRaw [headerLine]
  refine ⟨tail, ?_⟩
  show (runLoop fs initLibRaw entries [headerLine]).1 = headerLine :: tail
  rw [ht]
  rfl

/-- Claim C6: for a visited file that opens and unpacks successfully, the
emitted row is the five comma-separated fields basename, make,
normalized make, model, normalized model — the normalized pair in
addition to the raw pair. -/
theorem C6_row_fields (fs : Env) (p : Str) (h4 : 4 ≤ p.length)
    (hlt : p.length < SIZE_T_MOD) (hsfx : dngT.isSuffixOf p = true)
    (ho : (fs p).openCode = LIBRAW_SUCCESS) (hu : (fs p).unpackCode = LIBRAW_SUCCESS) :
    (mainRun fs [⟨p, false⟩]).output =
      [headerLine,
        stem p ++ comma ++ (fs p).idata.make ++ comma ++ (fs p).idata.normalized_make ++
          comma ++ (fs p).idata.model ++ comma ++ (fs p).idata.normalized_model] := by
  have h : ∀ e ∈ [(⟨p, false⟩ : Entry)], 4 ≤ e.path.length ∧ e.path.length < SIZE_T_MOD := by
    intro e he
    rw [List.mem_singleton] at he
    subst he
    exact ⟨h4, hlt⟩
  rw [mainRun_char fs _ h]
  have hvis : dngVisit (⟨p, false⟩ : Entry) = true := by simp [dngVisit, hsfx]
  simp [hvis, rowFor, cmResult, camera_model_success fs initLibRaw p ho hu,
    List.append_assoc]

/-- Claim C6, witness: the concrete row for a successfully decoded file. -/
theorem C6_row_fields_witness :
    (mainRun fsOk [⟨pW, false⟩]).output =
      [headerLine,
        stem pW ++ comma ++ (fsOk pW).idata.make ++ comma ++ (fsOk pW).idata.normalized_make ++
          comma ++ (fsOk pW).idata.model ++ comma ++ (fsOk pW).idata.normalized_model] :=
  C6_row_fields fsOk pW (by decide) (by decide) (by decide) rfl rfl

/-- Claim C7: over entries with realizable path lengths, the batch emits a
row for an entry if and only if it is a non-directory whose path ends in
`".dng"`: the output is the header followed by exactly one row for each
such entry, in traversal order, and no row for any other entry. -/
theorem C7_row_iff_dng (fs : Env) (entries : List Entry)
    (h : ∀ e ∈ entries, 4 ≤ e.path.length ∧ e.path.length < SIZE_T_MOD) :
    (mainRun fs entries).output =
      headerLine :: (entries.filter dngVisit).map (fun e => rowFor fs e.path) := by
  rw [mainRun_char fs entries h]

/-- Claim C7, witness: a concrete batch with a directory, a `.dng` file and
a `.txt` file emits exactly the row of the `.dng` file. -/
theorem C7_row_iff_dng_witness :
    (mainRun fsOk [eDir, eW, eTxt]).output =
      headerLine ::
        (([eDir, eW, eTxt] : List Entry).filter dngVisit).map (fun e => rowFor fsOk e.path) :=
  C7_row_iff_dng fsOk [eDir, eW, eTxt] (by decide)

/-- Claim C8: the extractor is deterministic and the per-file result does
not depend on what was processed before: because `camera_model` starts with
`recycle()`, its result (string and final processor state) is the same from
any two prior processor states, and the whole walk loop produces the same
output from any two prior processor states. -/
theorem C8_state_independent (fs : Env) (entries : List Entry)
    (raw raw' : LibRaw) (acc : List Str) (p : Str) :
    camera_model fs raw p = camera_model fs raw' p ∧
    runLoop fs raw entries acc = runLoop fs raw' entries acc :=
  ⟨camera_model_recycle fs raw raw' p, runLoop_raw_indep fs entries raw raw' acc⟩

/-- Claim C9: the extension match is case-sensitive: for a path whose last
four characters are a case variant of `".dng"` but not `".dng"` itself,
`is_dng_file` returns false and a batch visiting that file emits no row
for it. -/
theorem C9_case_sensitive (p : Str) (h4 : 4 ≤ p.length) (hlt : p.length < SIZE_T_MOD)
    (hcase : (p.drop (p.length - 4)).map Char.toLower = dngT)
    (hne : p.drop (p.length - 4) ≠ dngT) :
    is_dng_file p = .ok false ∧
    ∀ (fs : Env) (d : Bool), (mainRun fs [⟨p, d⟩]).output = [headerLine] := by
  have hok : is_dng_file p = .ok false := by
    rw [is_dng_file_eq h4 hlt, decide_eq_false hne]
  refine ⟨hok, fun fs d => ?_⟩
  have h : ∀ e ∈ [(⟨p, d⟩ : Entry)], 4 ≤ e.path.length ∧ e.path.length < SIZE_T_MOD := by
    intro e he
    rw [List.mem_singleton] at he
    subst he
    exact ⟨h4, hlt⟩
  rw [mainRun_char fs _ h]
  have hsfx : dngT.isSuffixOf p = false := by
    cases hb : dngT.isSuffixOf p with
    | false => rfl
    | true => exact absurd (dng_suffix_iff.mp hb) hne
  have hvis : dngVisit (⟨p, d⟩ : Entry) = false := by simp [dngVisit, hsfx]
  simp [hvis]

/-- Claim C9, witness: the concrete path `a.DNG` is rejected and emits no
row. -/
theorem C9_case_sensitive_witness :
    is_dng_file pDNG = .ok false ∧
    (mainRun fsOk [⟨pDNG, false⟩]).output = [headerLine] := by
  have h := C9_case_sensitive pDNG (by decide) (by decide) (by decide) (by decide)
  exact ⟨h.1, h.2 fsOk false⟩

/-- Claim C10: for every realizable path ending in `".dng"`, `basename`
returns (as a value, never the error state) the final path component —
split on `/` or `\`, the whole string when neither occurs — with its last
four characters removed. -/
theorem C10_basename_stem (p : Str) (hsfx : dngT <:+ p) (hlt : p.length < SIZE_T_MOD) :
    basename p = .ok ((lastComponent p).take ((lastComponent p).length - 4)) := by
  obtain ⟨pre, hpre⟩ := hsfx
  have hcomp : lastComponent p = lastComponent pre ++ dngT := by
    rw [← hpre]
    unfold lastComponent
    rw [List.foldl_append]
    exact foldl_compStep_sepFree (by decide) _
  have h4 : 4 ≤ (lastComponent p).length := by
    rw [hcomp, List.length_append]
    have hd4 : dngT.length = 4 := rfl
    omega
  rw [basename_eq_stem hlt]
  simp only [stem]
  rw [if_pos h4]

/-- Claim C10, witness: `basename` of a concrete two-component path. -/
theorem C10_basename_stem_witness :
    basename pW = .ok ((lastComponent pW).take ((lastComponent pW).length - 4)) :=
  C10_basename_stem pW ⟨"raw/a1384-dvf_095".toList, by decide⟩ (by decide)

end FiveK
